import Mathlib

/-!
Verification development for the lale core: the grammar-based search-space
generator (`src/lale/grammar.py`) and the batch-composable metric engine
(`src/lale/lib/rasl/_metrics.py`).

Numeric model: the metric accumulators are Python/NumPy floats.  We embed
them as exact rationals extended with the IEEE special values `inf`,
`neginf` and `nan` (type `FP`): the arithmetic on finite values is exact
(no rounding is modelled), while the special-value propagation of +, -, *
and / follows IEEE 754 (signed zeros are not modelled; a division by the
zero of `FP` behaves like division by IEEE +0.0).
-/

/-- Model of a Python/NumPy float: an exact rational or an IEEE special value. -/
inductive FP where
  | fin (q : ℚ)
  | inf
  | neginf
  | nan
deriving DecidableEq, Repr

/-- IEEE-style addition on `FP`. -/
def FP.add : FP → FP → FP
  | .nan, _ => .nan
  | .fin _, .nan => .nan
  | .inf, .nan => .nan
  | .neginf, .nan => .nan
  | .inf, .neginf => .nan
  | .neginf, .inf => .nan
  | .inf, .fin _ => .inf
  | .inf, .inf => .inf
  | .fin _, .inf => .inf
  | .neginf, .fin _ => .neginf
  | .neginf, .neginf => .neginf
  | .fin _, .neginf => .neginf
  | .fin a, .fin b => .fin (a + b)

/-- IEEE-style negation on `FP`. -/
def FP.neg : FP → FP
  | .fin q => .fin (-q)
  | .inf => .neginf
  | .neginf => .inf
  | .nan => .nan

/-- IEEE-style subtraction on `FP` (`a - b = a + (-b)`). -/
def FP.sub (a b : FP) : FP := a.add b.neg

/-- IEEE-style multiplication on `FP`. -/
def FP.mul : FP → FP → FP
  | .nan, _ => .nan
  | .fin _, .nan => .nan
  | .inf, .nan => .nan
  | .neginf, .nan => .nan
  | .inf, .inf => .inf
  | .inf, .neginf => .neginf
  | .neginf, .inf => .neginf
  | .neginf, .neginf => .inf
  | .inf, .fin b => if b = 0 then .nan else if b < 0 then .neginf else .inf
  | .fin a, .inf => if a = 0 then .nan else if a < 0 then .neginf else .inf
  | .neginf, .fin b => if b = 0 then .nan else if b < 0 then .inf else .neginf
  | .fin a, .neginf => if a = 0 then .nan else if a < 0 then .inf else .neginf
  | .fin a, .fin b => .fin (a * b)

/-- IEEE-style division on `FP`; dividing a nonzero finite value by zero
yields a signed infinity and `0/0` yields `nan` (this models IEEE +0.0:
signed zeros are not distinguished). -/
def FP.div : FP → FP → FP
  | .nan, _ => .nan
  | .fin _, .nan => .nan
  | .inf, .nan => .nan
  | .neginf, .nan => .nan
  | .inf, .inf => .nan
  | .inf, .neginf => .nan
  | .neginf, .inf => .nan
  | .neginf, .neginf => .nan
  | .inf, .fin b => if b < 0 then .neginf else .inf
  | .neginf, .fin b => if b < 0 then .inf else .neginf
  | .fin _, .inf => .fin 0
  | .fin _, .neginf => .fin 0
  | .fin a, .fin b =>
      if b = 0 then (if a = 0 then .nan else if a < 0 then .neginf else .inf)
      else .fin (a / b)

/-- `FP.isFinite v` holds when `v` is neither an infinity nor `nan`. -/
def FP.isFinite : FP → Bool
  | .fin _ => true
  | _ => false

/-- `_AccuracyData` from `_metrics.py`: the accuracy metric's monoid, with
accumulator fields `_match` (count of equal label pairs) and `_total`
(row count). -/
structure AccuracyData where
  _match : FP
  _total : FP
deriving DecidableEq, Repr

/-- `_AccuracyData.combine`: elementwise sum of the two accumulator fields. -/
def AccuracyData.combine (a other : AccuracyData) : AccuracyData :=
  ⟨a._match.add other._match, a._total.add other._total⟩

/-- `_AccuracyData.result`: `match / total` in float arithmetic. -/
def AccuracyData.result (a : AccuracyData) : FP :=
  a._match.div a._total

/-- `_R2Data` from `_metrics.py`: the R² metric's monoid, with accumulator
fields `_n` (count), `_sum` (sum of observed values), `_sum_sq` (sum of
squared observed values) and `_res_sum_sq` (residual sum of squares). -/
structure R2Data where
  _n : FP
  _sum : FP
  _sum_sq : FP
  _res_sum_sq : FP
deriving DecidableEq, Repr

/-- `_R2Data.combine`: elementwise sum of the four accumulator fields. -/
def R2Data.combine (a other : R2Data) : R2Data :=
  ⟨a._n.add other._n, a._sum.add other._sum,
   a._sum_sq.add other._sum_sq, a._res_sum_sq.add other._res_sum_sq⟩

/-- `_R2Data.result`: `ss_tot = sum_sq - sum * sum / n`, then
`1 - res_sum_sq / ss_tot`, all in float arithmetic, with no guard on a
zero `ss_tot`. -/
def R2Data.result (a : R2Data) : FP :=
  let ss_tot := a._sum_sq.sub ((a._sum.mul a._sum).div a._n)
  (FP.fin 1).sub (a._res_sum_sq.div ss_tot)

/-- `MonoidMaker` specialised as in `MetricMonoidMaker`: `toMonoid` lifts a
batch of type `B` into a monoid value of type `M`, `combine` merges two
monoid values, and `result` finalises one into an `R`.  The generic
`score_data` / `score_data_batched` methods are defined over this record. -/
structure MonoidMakerM (B M R : Type) where
  toMonoid : B → M
  combine : M → M → M
  result : M → R

/-- `functools.reduce` with no initialiser: `none` on the empty list
(Python raises `TypeError` there), otherwise the left fold of the tail
starting from the head. -/
def reduce1 {α : Type} (f : α → α → α) : List α → Option α
  | [] => none
  | x :: xs => some (xs.foldl f x)

/-- `MetricMonoidMaker.score_data`: lift one batch and finalise. -/
def MonoidMakerM.scoreData {B M R : Type} (mm : MonoidMakerM B M R) (b : B) : R :=
  mm.result (mm.toMonoid b)

/-- `MetricMonoidMaker.score_data_batched`: lift every batch, reduce the
monoids pairwise with `combine`, finalise once; `none` models the
exception raised on an empty iterable. -/
def MonoidMakerM.scoreDataBatched {B M R : Type} (mm : MonoidMakerM B M R)
    (batches : List B) : Option R :=
  (reduce1 mm.combine (batches.map mm.toMonoid)).map mm.result

/-- `MetricMonoidMaker.score_estimator_batched`: predict on each batch's
features, re-pair as `(y, prediction)`, defer to `score_data_batched`. -/
def MonoidMakerM.scoreEstimatorBatched {X Y M R : Type}
    (mm : MonoidMakerM (Y × Y) M R) (predict : X → Y)
    (batches : List (X × Y)) : Option R :=
  mm.scoreDataBatched (batches.map (fun b => (b.2, predict b.1)))

/-- State of the module-level `_scorer_cache` dict in `_metrics.py`: one
lazily-filled slot per scoring name, plus a counter that tags each
constructed scorer instance with a distinct identity (so that "the same
object is returned" is expressible). -/
structure ScorerCache where
  accuracy : Option ℕ
  r2 : Option ℕ
  nextId : ℕ
deriving DecidableEq, Repr

/-- The cache as initialised at module load: both slots `None`. -/
def ScorerCache.init : ScorerCache := ⟨none, none, 0⟩

/-- `get_scorer`: asserts the name is a key of the cache (`none` models the
`AssertionError`), constructs the scorer on first use, and afterwards
returns the stored instance with the cache unchanged. -/
def get_scorer (cache : ScorerCache) (scoring : String) :
    Option (ℕ × ScorerCache) :=
  if scoring = "accuracy" then
    match cache.accuracy with
    | some i => some (i, cache)
    | none =>
        some (cache.nextId,
          { cache with accuracy := some cache.nextId, nextId := cache.nextId + 1 })
  else if scoring = "r2" then
    match cache.r2 with
    | some i => some (i, cache)
    | none =>
        some (cache.nextId,
          { cache with r2 := some cache.nextId, nextId := cache.nextId + 1 })
  else none

/-!
Grammar engine (`src/lale/grammar.py`).  The operator model is external to
the repository (lale.operators); per the spec it exposes exactly four
shapes, embedded here as a closed inductive: Sequential-Composition
(`pipeline`, ordered steps plus dependency edges between step positions),
Choice, Reference (`nonTerminal`) and Leaf (`individual`, identified by
name).  The external constructors are modelled from the spec:
`get_pipeline_of_applicable_type steps edges` builds a pipeline with those
steps and edges, `make_choice` a Choice over the given alternatives,
`make_pipeline op` a one-step pipeline, and `NoOp` is a designated leaf. -/
inductive Op where
  | pipeline (steps : List Op) (edges : List (ℕ × ℕ))
  | choice (steps : List Op)
  | nonTerminal (name : String)
  | individual (name : String)

/-- Modelled from the spec: the neutral no-op operator (`lale.lib.lale.NoOp`),
an identity pass-through Leaf. -/
def NoOp : Op := Op.individual "NoOp"

/-- Modelled from the spec: `make_pipeline(op)` wraps a single operator in a
one-step pipeline with no edges. -/
def make_pipeline (op : Op) : Op := Op.pipeline [op] []

/-- The grammar's `_variables` rule table: rule name to bound operator. -/
def Vars : Type := List (String × Op)

/-- Dictionary lookup in the rule table (`self._variables[name]`). -/
def Vars.find : Vars → String → Option Op
  | [], _ => none
  | (k, v) :: rest, name => if k = name then some v else Vars.find rest name

/-- `Grammar.__getattr__` for a non-underscore name, at the level of rule
values: if the rule is unbound, create and store a Reference of that name;
return the (clone of the) stored value together with the updated table.
(Object identity of the clone is modelled separately for the aliasing
claim; here clones are represented by their value.) -/
def Vars.getattr (vars : Vars) (name : String) : Op × Vars :=
  match vars.find name with
  | some v => (v, vars)
  | none => (Op.nonTerminal name, (name, Op.nonTerminal name) :: vars)

mutual
/-- `Grammar._unfold(op, n)`: rewrites `op` against the fixed rule table
`vars`; `Except.error` models the `KeyError` raised by
`self._variables[op.name()]` on an unbound reference, and the inner
`Option` is Python's `None` (depth exhausted, no expansion). -/
def Grammar.unfoldAux (vars : Vars) (op : Op) (n : ℕ) :
    Except String (Option Op) :=
  match op with
  | .pipeline steps edges => do
      let newSteps ← Grammar.unfoldSteps vars steps n
      if newSteps.all Option.isSome then
        pure (some (Op.pipeline (newSteps.filterMap id) edges))
      else
        pure none
  | .choice steps => do
      let newSteps ← Grammar.unfoldSteps vars steps n
      let survivors := newSteps.filterMap id
      if survivors.isEmpty then pure none else pure (some (Op.choice survivors))
  | .nonTerminal name =>
      if n > 0 then
        match vars.find name with
        | some v => Grammar.unfoldAux vars v (n - 1)
        | none => Except.error "KeyError"
      else pure none
  | .individual name => pure (some (Op.individual name))
termination_by (n, sizeOf op)

/-- Maps `Grammar._unfold` over a pipeline's or choice's step list. -/
def Grammar.unfoldSteps (vars : Vars) (steps : List Op) (n : ℕ) :
    Except String (List (Option Op)) :=
  match steps with
  | [] => pure []
  | s :: rest => do
      let s' ← Grammar.unfoldAux vars s n
      let rest' ← Grammar.unfoldSteps vars rest n
      pure (s' :: rest')
termination_by (n, sizeOf steps)
end

/-- `Grammar.unfold(n)`: the `assert hasattr(self, 'start')` reads the
`start` attribute, whose `__getattr__` auto-creates a Reference when
unbound and never raises, so the assertion always passes; then
`self._unfold(self.start, n)` runs and a `None` result is replaced by the
no-op operator. -/
def Grammar.unfold (vars : Vars) (n : ℕ) : Except String Op := do
  let (startOp, vars1) := vars.getattr "start"
  let res ← Grammar.unfoldAux vars1 startOp n
  match res with
  | some op => pure (make_pipeline op)
  | none => pure NoOp

/-- Mutable state threaded through `Grammar._sample`: the rule table (which
`getattr` may extend) and the stream of outcomes of `random.choice`,
modelled as a list of naturals consumed one per Choice node (the pick is
the head modulo the number of alternatives). -/
structure SampState where
  vars : Vars
  rand : List ℕ

mutual
/-- `Grammar._sample(op, n)`: like `_unfold` but Choice resolves to one
randomly chosen alternative (`random.choice` raises `IndexError` on an
empty alternative list, modelled as `Except.error`), and a Reference is
re-read through `getattr(self, op.name())`, which auto-creates an unbound
rule instead of raising. -/
def Grammar.sampleAux (s : SampState) (op : Op) (n : ℕ) :
    Except String (Option Op × SampState) :=
  match op with
  | .pipeline steps edges => do
      let (newSteps, s1) ← Grammar.sampleSteps s steps n
      if newSteps.all Option.isSome then
        pure (some (Op.pipeline (newSteps.filterMap id) edges), s1)
      else
        pure (none, s1)
  | .choice steps =>
      match steps with
      | [] => Except.error "IndexError"
      | a :: l =>
          let r := s.rand.headD 0
          let s1 : SampState := ⟨s.vars, s.rand.tail⟩
          Grammar.sampleAux s1
            ((a :: l).get ⟨r % (a :: l).length, Nat.mod_lt _ (Nat.succ_pos _)⟩) n
  | .nonTerminal name =>
      if n > 0 then
        let (v, vars1) := s.vars.getattr name
        Grammar.sampleAux ⟨vars1, s.rand⟩ v (n - 1)
      else pure (none, s)
  | .individual name => pure (some (Op.individual name), s)
termination_by (n, sizeOf op)
decreasing_by
  all_goals simp_wf
  all_goals first
    | (apply Prod.Lex.left; omega)
    | (apply Prod.Lex.right; omega)
    | (apply Prod.Lex.right
       refine Nat.lt_trans (List.sizeOf_lt_of_mem (List.getElem_mem ?_)) ?_
       · exact Nat.mod_lt _ (Nat.succ_pos _)
       · simp only [List.cons.sizeOf_spec]
         omega)

/-- Maps `Grammar._sample` over a pipeline's step list, threading the
state left to right as the Python list comprehension does. -/
def Grammar.sampleSteps (s : SampState) (steps : List Op) (n : ℕ) :
    Except String (List (Option Op) × SampState) :=
  match steps with
  | [] => pure ([], s)
  | st :: rest => do
      let (st', s1) ← Grammar.sampleAux s st n
      let (rest', s2) ← Grammar.sampleSteps s1 rest n
      pure (st' :: rest', s2)
termination_by (n, sizeOf steps)
end

/-- `Grammar.sample(n)`: as for `unfold`, the `hasattr` assertion reads and
auto-creates `start`, then `_sample(self.start, n)` runs and a `None`
result is replaced by the no-op operator. -/
def Grammar.sample (vars : Vars) (rand : List ℕ) (n : ℕ) :
    Except String (Op × SampState) := do
  let (startOp, vars1) := vars.getattr "start"
  let (res, s1) ← Grammar.sampleAux ⟨vars1, rand⟩ startOp n
  match res with
  | some op => pure (make_pipeline op, s1)
  | none => pure (NoOp, s1)

mutual
/-- An operator is fully resolved when it is built from Leaf steps and
pipelines only: no Reference and no Choice shape occurs anywhere. -/
def Op.leafOnly : Op → Bool
  | .pipeline steps _ => Op.leafOnlyList steps
  | .choice _ => false
  | .nonTerminal _ => false
  | .individual _ => true
termination_by op => sizeOf op

/-- `Op.leafOnly` on every element of a step list. -/
def Op.leafOnlyList : List Op → Bool
  | [] => true
  | s :: rest => Op.leafOnly s && Op.leafOnlyList rest
termination_by l => sizeOf l
end

/-!
Object-identity model for `Grammar.__getattr__` and `NonTerminal`.  The
aliasing claim is about Python object identity, so here `NonTerminal`
objects live on a heap addressed by naturals: `heap a` is the `_name`
field of the object at address `a`, `vars` maps a rule name to the
address of the stored object, and `next` is the next fresh address. -/
structure GState where
  vars : String → Option ℕ
  heap : ℕ → String
  next : ℕ

/-- `NonTerminal.set_name`: mutates the `_name` field of the object at
`addr` in place. -/
def GState.set_name (g : GState) (addr : ℕ) (nm : String) : GState :=
  { g with heap := fun x => if x = addr then nm else g.heap x }

/-- `Grammar.__getattr__` for a rule name (no leading underscore), at the
object level: auto-create and store a `NonTerminal` named `name` when the
rule is unbound, then return `clone_op` of the stored object.  Modelled
from the spec for the external `clone_op`, which produces an independent
clone; for a `NonTerminal` the clone is `NonTerminal._lale_clone`, a
freshly allocated object carrying the same `_name`. -/
def GState.getattrRef (g : GState) (name : String) : ℕ × GState :=
  match g.vars name with
  | some a =>
      (g.next,
        { vars := g.vars,
          heap := fun x => if x = g.next then g.heap a else g.heap x,
          next := g.next + 1 })
  | none =>
      let stored := g.next
      (stored + 1,
        { vars := fun m => if m = name then some stored else g.vars m,
          heap := fun x =>
            if x = stored then name
            else if x = stored + 1 then name
            else g.heap x,
          next := stored + 2 })

/-! Theorems. -/

theorem FP.add_comm (a b : FP) : a.add b = b.add a := by
  cases a <;> cases b <;> simp [FP.add]
  ring

theorem FP.add_assoc (a b c : FP) : (a.add b).add c = a.add (b.add c) := by
  cases a <;> cases b <;> cases c <;> simp [FP.add]
  ring

theorem FP.add_left_comm (a b c : FP) : a.add (b.add c) = b.add (a.add c) := by
  rw [← FP.add_assoc, FP.add_comm a b, FP.add_assoc]

/-- C1: for every non-empty list of batches, `score_data_batched` equals
lifting each batch with `to_monoid`, left-folding the monoids pairwise
with `combine` in iteration order, and finalising the final fold with one
call to `result`; in particular on a single batch it equals `score_data`. -/
theorem C1_score_data_batched_is_fold {B M R : Type} (mm : MonoidMakerM B M R)
    (b : B) (bs : List B) :
    mm.scoreDataBatched (b :: bs)
        = some (mm.result ((bs.map mm.toMonoid).foldl mm.combine (mm.toMonoid b)))
      ∧ mm.scoreDataBatched [b] = some (mm.scoreData b) := by
  refine ⟨?_, ?_⟩ <;>
    simp [MonoidMakerM.scoreDataBatched, MonoidMakerM.scoreData, reduce1]

/-- C10: `score_data_batched` on an empty iterable of batches yields no
score (the initialiser-less `functools.reduce` raises), and therefore
`score_estimator_batched` on an empty iterable yields no score either. -/
theorem C10_batched_empty_fails {B M R X Y : Type} (mm : MonoidMakerM B M R)
    (mm2 : MonoidMakerM (Y × Y) M R) (predict : X → Y) :
    mm.scoreDataBatched [] = none ∧ mm2.scoreEstimatorBatched predict [] = none := by
  refine ⟨?_, ?_⟩ <;>
    simp [MonoidMakerM.scoreDataBatched, MonoidMakerM.scoreEstimatorBatched, reduce1]

/-- C3: for both the accuracy monoid and the R² monoid, `combine` is the
elementwise sum of the accumulator fields, and it is commutative and
associative on those fields. -/
theorem C3_combine_elementwise_comm_assoc :
    (∀ a b : AccuracyData,
        a.combine b = ⟨a._match.add b._match, a._total.add b._total⟩)
    ∧ (∀ x y : R2Data,
        x.combine y = ⟨x._n.add y._n, x._sum.add y._sum,
          x._sum_sq.add y._sum_sq, x._res_sum_sq.add y._res_sum_sq⟩)
    ∧ (∀ a b : AccuracyData, a.combine b = b.combine a)
    ∧ (∀ a b c : AccuracyData, (a.combine b).combine c = a.combine (b.combine c))
    ∧ (∀ x y : R2Data, x.combine y = y.combine x)
    ∧ (∀ x y z : R2Data, (x.combine y).combine z = x.combine (y.combine z)) := by
  refine ⟨fun a b => rfl, fun x y => rfl, ?_, ?_, ?_, ?_⟩ <;> intros <;>
    simp [AccuracyData.combine, R2Data.combine, FP.add_comm, FP.add_assoc,
      FP.add_left_comm]

/-- C2: on finite accumulator values with `n ≠ 0`, the R² finalisation
equals `1 - res_sum_sq / (sum_sq - sum * sum / n)` when the
total-sum-of-squares is nonzero; when it is zero the unguarded division
yields an IEEE special value (`nan`, `inf` or `neginf`), not an error. -/
theorem C2_r2_result_formula (n s ss rss : ℚ) (hn : n ≠ 0) :
    (ss - s * s / n ≠ 0 →
      (R2Data.mk (.fin n) (.fin s) (.fin ss) (.fin rss)).result
        = .fin (1 - rss / (ss - s * s / n)))
    ∧ (ss - s * s / n = 0 →
      ((R2Data.mk (.fin n) (.fin s) (.fin ss) (.fin rss)).result = FP.nan
        ∨ (R2Data.mk (.fin n) (.fin s) (.fin ss) (.fin rss)).result = FP.inf
        ∨ (R2Data.mk (.fin n) (.fin s) (.fin ss) (.fin rss)).result = FP.neginf)) := by
  constructor
  · intro h
    simp [R2Data.result, FP.mul, FP.div, FP.sub, FP.neg, FP.add, hn]
    rw [if_neg (by rw [← sub_eq_add_neg]; exact h)]
    simp [← sub_eq_add_neg]
  · intro h
    simp [R2Data.result, FP.mul, FP.div, FP.sub, FP.neg, FP.add, hn,
      ← sub_eq_add_neg, h]
    rcases lt_trichotomy rss 0 with hr | hr | hr
    · rw [if_neg (ne_of_lt hr), if_pos hr]
      simp
    · rw [if_pos hr]
      simp
    · rw [if_neg (ne_of_gt hr), if_neg (not_lt.mpr (le_of_lt hr))]
      simp

/-- Witness for C2 at the concrete accumulator `(n, sum, sum_sq,
res_sum_sq) = (1, 0, 0, 0)`, where the total-sum-of-squares is zero and
the result is the special value `nan`. -/
theorem C2_r2_result_formula_witness :
    ((1 : ℚ) ≠ 0)
    ∧ ((R2Data.mk (.fin 1) (.fin 0) (.fin 0) (.fin 0)).result = FP.nan
      ∨ (R2Data.mk (.fin 1) (.fin 0) (.fin 0) (.fin 0)).result = FP.inf
      ∨ (R2Data.mk (.fin 1) (.fin 0) (.fin 0) (.fin 0)).result = FP.neginf) :=
  ⟨by norm_num,
   (C2_r2_result_formula 1 0 0 0 (by norm_num)).2 (by norm_num)⟩

/-- C8: `get_scorer` fails exactly on names outside the closed set
`{"accuracy", "r2"}`; and once a call has returned an instance, any later
call with the same name returns that identical instance and leaves the
cache unchanged (no reconstruction). -/
theorem C8_get_scorer_closed_set_cached (cache : ScorerCache) (name : String) :
    (get_scorer cache name = none ↔ name ≠ "accuracy" ∧ name ≠ "r2")
    ∧ (∀ i cache', get_scorer cache name = some (i, cache') →
        get_scorer cache' name = some (i, cache')) := by
  constructor
  · unfold get_scorer
    by_cases ha : name = "accuracy"
    · simp only [ha, if_pos rfl]
      cases cache.accuracy <;> simp
    · rw [if_neg ha]
      by_cases hr : name = "r2"
      · simp only [hr, if_pos rfl]
        cases cache.r2 <;> simp
      · simp [ha, hr]
  · intro i cache' h
    unfold get_scorer at h ⊢
    by_cases ha : name = "accuracy"
    · rw [if_pos ha] at h ⊢
      cases hc : cache.accuracy with
      | some j =>
          rw [hc] at h
          simp only [Option.some.injEq, Prod.mk.injEq] at h
          rw [← h.2, hc, h.1]
      | none =>
          rw [hc] at h
          simp only [Option.some.injEq, Prod.mk.injEq] at h
          rw [← h.2]
          simp [← h.1]
    · rw [if_neg ha] at h ⊢
      by_cases hr : name = "r2"
      · rw [if_pos hr] at h ⊢
        cases hc : cache.r2 with
        | some j =>
            rw [hc] at h
            simp only [Option.some.injEq, Prod.mk.injEq] at h
            rw [← h.2, hc, h.1]
        | none =>
            rw [hc] at h
            simp only [Option.some.injEq, Prod.mk.injEq] at h
            rw [← h.2]
            simp [← h.1]
      · rw [if_neg hr] at h
        exact absurd h (by simp)

/-- Witness for C8: on the initial cache, the first `"accuracy"` call
constructs instance `0`; a second call returns the identical instance with
the cache unchanged, and an unknown name fails. -/
theorem C8_get_scorer_closed_set_cached_witness :
    get_scorer (ScorerCache.mk (some 0) none 1) "accuracy"
        = some (0, ScorerCache.mk (some 0) none 1)
    ∧ get_scorer ScorerCache.init "unknown" = none :=
  ⟨(C8_get_scorer_closed_set_cached ScorerCache.init "accuracy").2 0
      (ScorerCache.mk (some 0) none 1) (by decide),
   (C8_get_scorer_closed_set_cached ScorerCache.init "unknown").1.mpr
      (by decide)⟩

theorem pureOk {ε α : Type} (a : α) : (pure a : Except ε α) = Except.ok a := rfl

theorem okBind {ε α β : Type} (a : α) (f : α → Except ε β) :
    (Except.ok a : Except ε α) >>= f = f a := rfl

theorem errBind {ε α β : Type} (e : ε) (f : α → Except ε β) :
    (Except.error e : Except ε α) >>= f = Except.error e := rfl

theorem Grammar.unfoldAux_nonTerminal_zero (vars : Vars) (nm : String) :
    Grammar.unfoldAux vars (.nonTerminal nm) 0 = Except.ok none := by
  rw [Grammar.unfoldAux]
  simp [pureOk]

theorem Grammar.unfoldAux_self_loop (vars : Vars)
    (h : vars.find "start" = some (.nonTerminal "start")) :
    ∀ n, Grammar.unfoldAux vars (.nonTerminal "start") n = Except.ok none := by
  intro n
  induction n with
  | zero => exact Grammar.unfoldAux_nonTerminal_zero vars "start"
  | succ k ih =>
      rw [Grammar.unfoldAux]
      simp [h, ih]

/-- C6: a grammar whose `start` rule references only itself degrades
gracefully: `unfold(n)` yields the no-op operator for every `n`, the depth
parameter decrementing at each Reference hop being the only guard (the
embedding is a total function, so termination holds by construction). -/
theorem C6_self_loop_unfold_noop (vars : Vars)
    (h : vars.find "start" = some (.nonTerminal "start")) (n : ℕ) :
    Grammar.unfold vars n = Except.ok NoOp := by
  unfold Grammar.unfold
  simp [Vars.getattr, h, Grammar.unfoldAux_self_loop vars h n, okBind, pureOk]

/-- Witness for C6 on the one-rule grammar `start ::= start` at depth 5. -/
theorem C6_self_loop_unfold_noop_witness :
    Vars.find [("start", Op.nonTerminal "start")] "start"
        = some (Op.nonTerminal "start")
    ∧ Grammar.unfold [("start", Op.nonTerminal "start")] 5 = Except.ok NoOp :=
  ⟨rfl, C6_self_loop_unfold_noop [("start", Op.nonTerminal "start")] rfl 5⟩

/-- C5 counterexample: with `start` bound to a Leaf, `unfold(0)` returns
that leaf wrapped in a one-step pipeline, not the no-op operator — the
depth check only fires at Reference hops, so the claim's "whatever shape
`start` is bound to" is false. -/
theorem C5_counterexample :
    Grammar.unfold [("start", Op.individual "A")] 0 ≠ Except.ok NoOp := by
  have ha : Grammar.unfoldAux [("start", Op.individual "A")] (Op.individual "A") 0
      = Except.ok (some (Op.individual "A")) := by
    rw [Grammar.unfoldAux]
    rfl
  unfold Grammar.unfold
  rw [show Vars.getattr [("start", Op.individual "A")] "start"
      = (Op.individual "A", [("start", Op.individual "A")]) from rfl]
  simp [ha, okBind, pureOk, make_pipeline, NoOp]

/-- C5 (amended): `unfold(0)` yields the no-op operator whenever `start`
is bound to a Reference (the depth budget is exhausted at the very first
Reference hop); for other shapes the bound operator itself survives. -/
theorem C5_unfold_zero_reference_noop (vars : Vars) (nm : String)
    (h : vars.find "start" = some (.nonTerminal nm)) :
    Grammar.unfold vars 0 = Except.ok NoOp := by
  unfold Grammar.unfold
  simp [Vars.getattr, h, Grammar.unfoldAux_nonTerminal_zero, okBind, pureOk]

/-- Witness for the amended C5 on a grammar whose `start` is the
Reference `S`. -/
theorem C5_unfold_zero_reference_noop_witness :
    Vars.find [("start", Op.nonTerminal "S")] "start" = some (Op.nonTerminal "S")
    ∧ Grammar.unfold [("start", Op.nonTerminal "S")] 0 = Except.ok NoOp :=
  ⟨rfl, C5_unfold_zero_reference_noop [("start", Op.nonTerminal "S")] "S" rfl⟩

/-- C4 (divergence witness): on a grammar where `start` was never bound,
`unfold(1)` and `sample(1)` do NOT fail — `__getattr__` auto-creates a
Reference named `start`, so `assert hasattr(self, 'start')` passes and
both return the no-op operator (`sample` leaving the auto-created rule in
the table).  This contradicts the claimed precondition error. -/
theorem C4_unbound_start_returns_noop :
    Grammar.unfold [] 1 = Except.ok NoOp
    ∧ Grammar.sample [] [] 1
        = Except.ok (NoOp, SampState.mk [("start", Op.nonTerminal "start")] []) := by
  constructor
  · unfold Grammar.unfold
    rw [show Vars.getattr [] "start"
        = (Op.nonTerminal "start", [("start", Op.nonTerminal "start")]) from rfl]
    have h1 : Grammar.unfoldAux [("start", Op.nonTerminal "start")]
        (Op.nonTerminal "start") 1 = Except.ok none :=
      Grammar.unfoldAux_self_loop [("start", Op.nonTerminal "start")] rfl 1
    simp [h1, okBind, pureOk]
  · unfold Grammar.sample
    rw [show Vars.getattr [] "start"
        = (Op.nonTerminal "start", [("start", Op.nonTerminal "start")]) from rfl]
    have h0 : Grammar.sampleAux ⟨[("start", Op.nonTerminal "start")], []⟩
        (Op.nonTerminal "start") 0
        = Except.ok (none, ⟨[("start", Op.nonTerminal "start")], []⟩) := by
      rw [Grammar.sampleAux]
      simp [pureOk]
    have h2 : Grammar.sampleAux ⟨[("start", Op.nonTerminal "start")], []⟩
        (Op.nonTerminal "start") 1
        = Except.ok (none, ⟨[("start", Op.nonTerminal "start")], []⟩) := by
      rw [Grammar.sampleAux]
      simp only [gt_iff_lt, Nat.lt_irrefl, Nat.zero_lt_one, if_true]
      rw [show Vars.getattr [("start", Op.nonTerminal "start")] "start"
          = (Op.nonTerminal "start", [("start", Op.nonTerminal "start")]) from rfl]
      exact h0
    simp [h2, okBind, pureOk]

theorem Op.leafOnly_individual (nm : String) : (Op.individual nm).leafOnly = true := by
  rw [Op.leafOnly]

theorem Op.leafOnly_pipeline (l : List Op) (e : List (ℕ × ℕ)) :
    (Op.pipeline l e).leafOnly = Op.leafOnlyList l := by
  rw [Op.leafOnly]

theorem Op.leafOnlyList_nil : Op.leafOnlyList [] = true := by
  rw [Op.leafOnlyList]

theorem Op.leafOnlyList_cons (x : Op) (l : List Op) :
    Op.leafOnlyList (x :: l) = (x.leafOnly && Op.leafOnlyList l) := by
  rw [Op.leafOnlyList]

theorem Grammar.sampleAux_leaf_only :
    ∀ (s : SampState) (op : Op) (n : ℕ) (res : Op) (s' : SampState),
      Grammar.sampleAux s op n = Except.ok (some res, s') → res.leafOnly = true := by
  intro s op n
  refine Grammar.sampleAux.induct
    (fun s op n => ∀ res s',
      Grammar.sampleAux s op n = Except.ok (some res, s') → res.leafOnly = true)
    (fun s steps n => ∀ outs s',
      Grammar.sampleSteps s steps n = Except.ok (outs, s') →
        Op.leafOnlyList (outs.filterMap id) = true)
    ?_ ?_ ?_ ?_ ?_ ?_ ?_ ?_ s op n
  · intro s n steps edges ih res s' h
    rw [Grammar.sampleAux] at h
    cases hss : Grammar.sampleSteps s steps n with
    | error e => rw [hss] at h; simp [errBind] at h
    | ok p =>
        obtain ⟨newSteps, s1⟩ := p
        rw [hss] at h
        simp only [okBind] at h
        by_cases hall : newSteps.all Option.isSome = true
        · simp only [hall, if_true, pureOk, Except.ok.injEq, Prod.mk.injEq,
            Option.some.injEq] at h
          rw [← h.1, Op.leafOnly_pipeline]
          exact ih newSteps s1 hss
        · simp [hall, pureOk] at h
  · intro s n res s' h
    rw [Grammar.sampleAux] at h
    simp at h
  · intro s n a rest r s1 ih res s' h
    rw [Grammar.sampleAux] at h
    exact ih res s' h
  · intro s n name hn startOp vars1 hg ih res s' h
    rw [Grammar.sampleAux] at h
    rw [if_pos hn, hg] at h
    exact ih res s' h
  · intro s n name hn res s' h
    rw [Grammar.sampleAux] at h
    rw [if_neg hn] at h
    simp [pureOk] at h
  · intro s n name res s' h
    rw [Grammar.sampleAux] at h
    simp only [pureOk, Except.ok.injEq, Prod.mk.injEq, Option.some.injEq] at h
    rw [← h.1, Op.leafOnly_individual]
  · intro s n outs s' h
    rw [Grammar.sampleSteps] at h
    simp only [pureOk, Except.ok.injEq, Prod.mk.injEq] at h
    rw [← h.1]
    simp [Op.leafOnlyList_nil]
  · intro s n st rest ih1 ih2 outs s' h
    rw [Grammar.sampleSteps] at h
    cases ha : Grammar.sampleAux s st n with
    | error e => rw [ha] at h; simp [errBind] at h
    | ok p =>
        obtain ⟨o1, s1⟩ := p
        rw [ha] at h
        simp only [okBind] at h
        cases hb : Grammar.sampleSteps s1 rest n with
        | error e => rw [hb] at h; simp [errBind] at h
        | ok q =>
            obtain ⟨rest', s2⟩ := q
            rw [hb] at h
            simp only [okBind, pureOk, Except.ok.injEq, Prod.mk.injEq] at h
            rw [← h.1]
            cases o1 with
            | none =>
                simp only [List.filterMap_cons, id_eq]
                exact ih2 s1 rest' s2 hb
            | some x =>
                simp only [List.filterMap_cons, id_eq]
                rw [Op.leafOnlyList_cons, Bool.and_eq_true]
                exact ⟨ih1 x s1 ha, ih2 s1 rest' s2 hb⟩

/-- C7: whenever `sample(n)` returns an operator (for any grammar with
`start` bound, any depth, and any stream of random choices), that
operator contains only Leaf-shaped steps: no Reference and no Choice
shape occurs anywhere in it. -/
theorem C7_sample_returns_only_leaves (vars : Vars) (rand : List ℕ) (n : ℕ)
    (h : (Vars.find vars "start").isSome = true) :
    ∀ op s', Grammar.sample vars rand n = Except.ok (op, s') →
      op.leafOnly = true := by
  intro op s' hs
  obtain ⟨st, hst⟩ := Option.isSome_iff_exists.mp h
  unfold Grammar.sample at hs
  simp only [Vars.getattr, hst] at hs
  cases ha : Grammar.sampleAux ⟨vars, rand⟩ st n with
  | error e => rw [ha] at hs; simp [errBind] at hs
  | ok p =>
      obtain ⟨res, s1⟩ := p
      rw [ha] at hs
      simp only [okBind] at hs
      cases res with
      | none =>
          simp only [pureOk, Except.ok.injEq, Prod.mk.injEq] at hs
          rw [← hs.1, NoOp, Op.leafOnly_individual]
      | some x =>
          simp only [pureOk, Except.ok.injEq, Prod.mk.injEq] at hs
          rw [← hs.1, make_pipeline, Op.leafOnly_pipeline,
            Op.leafOnlyList_cons, Op.leafOnlyList_nil, Bool.and_true]
          exact Grammar.sampleAux_leaf_only ⟨vars, rand⟩ st n x s1 ha

/-- Witness for C7 on the grammar `start ::= Leaf A` at depth 0 with an
empty random stream. -/
theorem C7_sample_returns_only_leaves_witness :
    (Vars.find [("start", Op.individual "A")] "start").isSome = true
    ∧ (∀ op s', Grammar.sample [("start", Op.individual "A")] [] 0
          = Except.ok (op, s') → op.leafOnly = true) :=
  ⟨rfl, C7_sample_returns_only_leaves [("start", Op.individual "A")] [] 0 rfl⟩

/-- C9: reading a rule attribute (name without the reserved underscore
prefix) returns a fresh copy: after the read, the rule is bound to a
stored object at an address different from the returned copy's address;
renaming the returned copy leaves the grammar's rule table and the stored
object untouched; and a second read returns yet another address, so two
reads never alias. -/
theorem C9_getattr_returns_fresh_copy (g : GState) (name : String)
    (_hpref : name.data.head? ≠ some '_')
    (hwf : ∀ a, g.vars name = some a → a < g.next) :
    ∃ a, ((g.getattrRef name).2).vars name = some a
      ∧ a ≠ (g.getattrRef name).1
      ∧ (∀ nm, (GState.set_name (g.getattrRef name).2 (g.getattrRef name).1 nm).vars
            = ((g.getattrRef name).2).vars
          ∧ (GState.set_name (g.getattrRef name).2 (g.getattrRef name).1 nm).heap a
            = ((g.getattrRef name).2).heap a)
      ∧ (((g.getattrRef name).2).getattrRef name).1 ≠ (g.getattrRef name).1 := by
  cases hg : g.vars name with
  | some a =>
      have ha : a ≠ g.next := Nat.ne_of_lt (hwf a hg)
      refine ⟨a, ?_, ?_, ?_, ?_⟩
      · simp [GState.getattrRef, hg]
      · simpa [GState.getattrRef, hg] using ha
      · intro nm
        refine ⟨?_, ?_⟩
        · simp [GState.getattrRef, GState.set_name, hg]
        · simp [GState.getattrRef, GState.set_name, hg, ha]
      · simp [GState.getattrRef, hg]
  | none =>
      refine ⟨g.next, ?_, ?_, ?_, ?_⟩
      · simp [GState.getattrRef, hg]
      · simp [GState.getattrRef, hg]
      · intro nm
        refine ⟨?_, ?_⟩
        · simp [GState.getattrRef, GState.set_name, hg]
        · simp [GState.getattrRef, GState.set_name, hg]
      · simp [GState.getattrRef, hg]

/-- Witness for C9 on the empty grammar, reading rule `start`. -/
theorem C9_getattr_returns_fresh_copy_witness :
    ("start".data.head? ≠ some '_')
    ∧ (∃ a, (((GState.mk (fun _ => none) (fun _ => "") 0).getattrRef "start").2).vars
          "start" = some a
      ∧ a ≠ ((GState.mk (fun _ => none) (fun _ => "") 0).getattrRef "start").1
      ∧ (∀ nm, (GState.set_name
              ((GState.mk (fun _ => none) (fun _ => "") 0).getattrRef "start").2
              ((GState.mk (fun _ => none) (fun _ => "") 0).getattrRef "start").1
              nm).vars
            = ((((GState.mk (fun _ => none) (fun _ => "") 0).getattrRef
                "start").2)).vars
          ∧ (GState.set_name
              ((GState.mk (fun _ => none) (fun _ => "") 0).getattrRef "start").2
              ((GState.mk (fun _ => none) (fun _ => "") 0).getattrRef "start").1
              nm).heap a
            = ((((GState.mk (fun _ => none) (fun _ => "") 0).getattrRef
                "start").2)).heap a)
      ∧ ((((GState.mk (fun _ => none) (fun _ => "") 0).getattrRef "start").2).getattrRef
            "start").1
          ≠ ((GState.mk (fun _ => none) (fun _ => "") 0).getattrRef "start").1) :=
  ⟨by decide,
   C9_getattr_returns_fresh_copy (GState.mk (fun _ => none) (fun _ => "") 0) "start"
     (by decide) (by simp)⟩
